import Mathlib

/-!
Verification of the `EmergencyServicePerformance` call-log store
(`src/Emergency2.py`).

Modelling choices:
* Python `datetime` timestamps are modelled as rationals (seconds on a
  common timeline); `timedelta` durations are rationals (seconds).
  `datetime` comparison and subtraction become `≤` and `-` on `ℚ`, and
  `timedelta / int` becomes exact rational division.
* The mutable `self.call_logs` list is threaded explicitly: each mutating
  operation takes the current list and returns the new one.
* A raised `ValueError` becomes an `Except.error`.  The two distinct
  raise sites (timestamp ordering violated on insert; metric requested on
  an empty store) become the two constructors of `EspError`.
-/

namespace Emergency

/-- One call record, mirroring the dictionary built in `add_call_log`
(keys `call_id`, `call_time`, `dispatch_time`, `arrival_time`,
`resolution_time`, `success`). -/
structure CallRecord where
  call_id : Int
  call_time : ℚ
  dispatch_time : ℚ
  arrival_time : ℚ
  resolution_time : ℚ
  success : Bool
deriving DecidableEq, Repr

/-- The two failure kinds of the class: the `ValueError` raised by
`add_call_log` on out-of-order timestamps, and the `ValueError` raised by
the three metric methods on an empty store. -/
inductive EspError where
  | invalidOrdering
  | emptyStore
deriving DecidableEq, Repr

/-- `add_call_log`: validates
`call_time <= dispatch_time <= arrival_time <= resolution_time`; on
violation raises (returns `invalidOrdering`), otherwise appends the new
record to `call_logs`. -/
def add_call_log (call_logs : List CallRecord) (call_id : Int)
    (call_time dispatch_time arrival_time resolution_time : ℚ)
    (success : Bool) : Except EspError (List CallRecord) :=
  if ¬ (call_time ≤ dispatch_time ∧ dispatch_time ≤ arrival_time ∧
        arrival_time ≤ resolution_time) then
    Except.error EspError.invalidOrdering
  else
    Except.ok (call_logs ++
      [{ call_id := call_id, call_time := call_time,
         dispatch_time := dispatch_time, arrival_time := arrival_time,
         resolution_time := resolution_time, success := success }])

/-- `average_response_time`: raises on an empty store, otherwise sums
`arrival_time - call_time` over all records with a running accumulator
(the Python `for` loop) and divides by the record count. -/
def average_response_time (call_logs : List CallRecord) :
    Except EspError ℚ :=
  if call_logs = [] then Except.error EspError.emptyStore
  else
    Except.ok
      ((call_logs.foldl
          (fun acc call => acc + (call.arrival_time - call.call_time)) 0) /
        call_logs.length)

/-- `success_rate`: raises on an empty store, otherwise counts the records
with `success = true` (the Python `sum(call['success'] for ...)`),
divides by the record count and multiplies by the literal constant
`10000000000000000000` that appears in the source. -/
def success_rate (call_logs : List CallRecord) : Except EspError ℚ :=
  if call_logs = [] then Except.error EspError.emptyStore
  else
    Except.ok
      (((call_logs.foldl
           (fun acc call => acc + (if call.success then 1 else 0)) 0 : ℚ) /
         call_logs.length) * 10000000000000000000)

/-- `average_resolution_time`: raises on an empty store, otherwise sums
`resolution_time - call_time` over all records and divides by the record
count. -/
def average_resolution_time (call_logs : List CallRecord) :
    Except EspError ℚ :=
  if call_logs = [] then Except.error EspError.emptyStore
  else
    Except.ok
      ((call_logs.foldl
          (fun acc call => acc + (call.resolution_time - call.call_time)) 0) /
        call_logs.length)

/-- `calls_in_timeframe`: the list comprehension keeping the records with
`start_time <= call_time <= end_time`. -/
def calls_in_timeframe (call_logs : List CallRecord)
    (start_time end_time : ℚ) : List CallRecord :=
  call_logs.filter
    (fun call =>
      decide (start_time ≤ call.call_time) && decide (call.call_time ≤ end_time))

/-- `add_multiple_call_logs`: calls `add_call_log` on each input record in
order.  A raise propagates out of the loop at once, leaving the records
already appended in place: the result is the store after the loop together
with the error that escaped, if any. -/
def add_multiple_call_logs (call_logs : List CallRecord)
    (calls : List CallRecord) : List CallRecord × Option EspError :=
  match calls with
  | [] => (call_logs, none)
  | call :: rest =>
    match add_call_log call_logs call.call_id call.call_time
        call.dispatch_time call.arrival_time call.resolution_time
        call.success with
    | Except.error e => (call_logs, some e)
    | Except.ok newLogs => add_multiple_call_logs newLogs rest

/-- The chronological-ordering invariant every stored record must satisfy. -/
def chronOrdered (c : CallRecord) : Prop :=
  c.call_time ≤ c.dispatch_time ∧ c.dispatch_time ≤ c.arrival_time ∧
    c.arrival_time ≤ c.resolution_time

instance (c : CallRecord) : Decidable (chronOrdered c) := by
  unfold chronOrdered; infer_instance

/-- One method call on an `EmergencyServicePerformance` instance. -/
inductive Op where
  | addCall (call_id : Int)
      (call_time dispatch_time arrival_time resolution_time : ℚ)
      (success : Bool)
  | addMultiple (calls : List CallRecord)
  | queryAvgResponse
  | querySuccessRate
  | queryAvgResolution
  | queryTimeframe (start_time end_time : ℚ)

/-- What a method call hands back to the caller. -/
inductive Output where
  | unit
  | err (e : EspError)
  | dur (q : ℚ)
  | rate (q : ℚ)
  | records (rs : List CallRecord)
deriving DecidableEq, Repr

/-- Running one method call: the resulting `call_logs` list together with
the value returned (or the error raised).  A failed `add_call_log` leaves
the store as it was; the query methods never assign to `self.call_logs`. -/
def step (call_logs : List CallRecord) : Op → List CallRecord × Output
  | Op.addCall call_id ct dt arr rt s =>
    match add_call_log call_logs call_id ct dt arr rt s with
    | Except.ok newLogs => (newLogs, Output.unit)
    | Except.error e => (call_logs, Output.err e)
  | Op.addMultiple calls =>
    match add_multiple_call_logs call_logs calls with
    | (newLogs, none) => (newLogs, Output.unit)
    | (newLogs, some e) => (newLogs, Output.err e)
  | Op.queryAvgResponse =>
    (call_logs,
      match average_response_time call_logs with
      | Except.ok q => Output.dur q
      | Except.error e => Output.err e)
  | Op.querySuccessRate =>
    (call_logs,
      match success_rate call_logs with
      | Except.ok q => Output.rate q
      | Except.error e => Output.err e)
  | Op.queryAvgResolution =>
    (call_logs,
      match average_resolution_time call_logs with
      | Except.ok q => Output.dur q
      | Except.error e => Output.err e)
  | Op.queryTimeframe s e =>
    (call_logs, Output.records (calls_in_timeframe call_logs s e))

/-- The store reached from a fresh (empty) instance after a sequence of
method calls. -/
def runOps (ops : List Op) : List CallRecord :=
  ops.foldl (fun logs op => (step logs op).1) []

/-! ### Helper lemmas -/

lemma foldl_add_eq (f : CallRecord → ℚ) (l : List CallRecord) (q : ℚ) :
    l.foldl (fun acc c => acc + f c) q = q + (l.map f).sum := by
  induction l generalizing q with
  | nil => simp
  | cons c rest ih => simp [ih, add_assoc]

lemma foldl_success_count (l : List CallRecord) (q : ℚ) :
    l.foldl (fun acc c => acc + (if c.success then 1 else 0)) q =
      q + ((l.filter (fun c => c.success)).length : ℚ) := by
  induction l generalizing q with
  | nil => simp
  | cons c rest ih =>
    by_cases hc : c.success
    · simp [hc, ih, List.filter_cons]
      ring
    · simp [hc, ih, List.filter_cons]

lemma add_call_log_ok_sound {logs newLogs : List CallRecord} {call_id : Int}
    {ct dt arr rt : ℚ} {s : Bool}
    (h : add_call_log logs call_id ct dt arr rt s = Except.ok newLogs) :
    newLogs = logs ++ [⟨call_id, ct, dt, arr, rt, s⟩] ∧
      ct ≤ dt ∧ dt ≤ arr ∧ arr ≤ rt := by
  by_cases hc : (ct ≤ dt ∧ dt ≤ arr ∧ arr ≤ rt)
  · rw [add_call_log, if_neg (not_not_intro hc)] at h
    exact ⟨(Except.ok.inj h).symm, hc⟩
  · rw [add_call_log, if_pos hc] at h
    exact absurd h (by simp)

/-! ### Claim theorems -/

/-- Claim C1: for every store state and input record, if the four
timestamps do not satisfy
`call_time ≤ dispatch_time ≤ arrival_time ≤ resolution_time` then
`add_call_log` fails with `InvalidOrderingError` and the store is left
exactly as it was; if they do satisfy it, `add_call_log` succeeds and the
new store is the old one with exactly one new record appended at the
end. -/
theorem add_call_log_spec (call_logs : List CallRecord) (call_id : Int)
    (ct dt arr rt : ℚ) (s : Bool) :
    (¬ (ct ≤ dt ∧ dt ≤ arr ∧ arr ≤ rt) →
      add_call_log call_logs call_id ct dt arr rt s =
          Except.error EspError.invalidOrdering ∧
        (step call_logs (Op.addCall call_id ct dt arr rt s)).1 = call_logs) ∧
    ((ct ≤ dt ∧ dt ≤ arr ∧ arr ≤ rt) →
      add_call_log call_logs call_id ct dt arr rt s =
          Except.ok (call_logs ++ [⟨call_id, ct, dt, arr, rt, s⟩]) ∧
        (step call_logs (Op.addCall call_id ct dt arr rt s)).1 =
          call_logs ++ [⟨call_id, ct, dt, arr, rt, s⟩]) := by
  constructor
  · intro h
    have he : add_call_log call_logs call_id ct dt arr rt s =
        Except.error EspError.invalidOrdering := by
      rw [add_call_log, if_pos h]
    exact ⟨he, by simp [step, he]⟩
  · intro h
    have ho : add_call_log call_logs call_id ct dt arr rt s =
        Except.ok (call_logs ++ [⟨call_id, ct, dt, arr, rt, s⟩]) := by
      rw [add_call_log, if_neg (not_not_intro h)]
    exact ⟨ho, by simp [step, ho]⟩

/-- Witness for C1: a concrete out-of-order insertion is rejected and
leaves the store empty; a concrete in-order insertion appends the one
record. -/
theorem add_call_log_spec_witness :
    (add_call_log [] 1 3 1 1 1 true = Except.error EspError.invalidOrdering ∧
      (step [] (Op.addCall 1 3 1 1 1 true)).1 = []) ∧
    add_call_log [] 1 0 1 2 3 true = Except.ok [⟨1, 0, 1, 2, 3, true⟩] :=
  ⟨(add_call_log_spec [] 1 3 1 1 1 true).1 (by norm_num),
   ((add_call_log_spec [] 1 0 1 2 3 true).2 (by norm_num)).1⟩

/-- Claim C2 (the code contradicts its own docstring here): on a store
with one successful record, `success_rate` returns the source's literal
constant `10000000000000000000`, not the percentage `100` promised by the
docstring ("Calculates the percentage of successful emergency
responses"). -/
theorem success_rate_constant_bug :
    success_rate [⟨1, 0, 0, 0, 0, true⟩] =
        Except.ok 10000000000000000000 ∧
      (10000000000000000000 : ℚ) ≠ 100 := by
  constructor
  · norm_num [success_rate]
  · norm_num

/-- Claim C3: on a non-empty store, `average_response_time` returns
exactly the sum of the response durations `arrival_time - call_time`
divided by the record count, with exact rational arithmetic. -/
theorem average_response_time_eq_mean (call_logs : List CallRecord)
    (h : call_logs ≠ []) :
    average_response_time call_logs =
      Except.ok
        ((call_logs.map (fun c => c.arrival_time - c.call_time)).sum /
          call_logs.length) := by
  simp [average_response_time, h, foldl_add_eq]

/-- Witness for C3: on a concrete two-record store with response
durations 10 and 20 seconds the mean is 15 seconds. -/
theorem average_response_time_eq_mean_witness :
    average_response_time
        [⟨1, 0, 0, 10, 10, true⟩, ⟨2, 0, 0, 20, 20, false⟩] =
      Except.ok 15 := by
  have h := average_response_time_eq_mean
    [⟨1, 0, 0, 10, 10, true⟩, ⟨2, 0, 0, 20, 20, false⟩] (by simp)
  rw [h]
  norm_num

/-- Claim C4: on the empty store each of `average_response_time`,
`average_resolution_time` and `success_rate` fails with
`EmptyStoreError`, while `calls_in_timeframe` (a total function in this
embedding, so it can never fail) returns the empty sequence for every
timeframe. -/
theorem empty_store_behaviour :
    average_response_time [] = Except.error EspError.emptyStore ∧
    average_resolution_time [] = Except.error EspError.emptyStore ∧
    success_rate [] = Except.error EspError.emptyStore ∧
    ∀ start_time end_time : ℚ, calls_in_timeframe [] start_time end_time = [] :=
  ⟨rfl, rfl, rfl, fun _ _ => rfl⟩

/-- Claim C9 counterexample: with the spec's two example records
(call 14:30 → arrival 14:35, and call 9:15 → arrival 9:20, timestamps in
seconds of day), `average_response_time` is 300 seconds = 5 minutes, not
the 4.5 minutes (= 270 seconds) the spec example states. -/
theorem average_response_time_example_counterexample :
    average_response_time
        [⟨1, 52200, 52200, 52500, 52500, true⟩,
         ⟨2, 33300, 33300, 33600, 33600, true⟩] = Except.ok 300 ∧
      (300 : ℚ) ≠ (9 / 2) * 60 := by
  constructor
  · rw [average_response_time, if_neg (by simp)]
    norm_num
  · norm_num

/-- Claim C9 as amended: for any store holding exactly the two example
records (call 14:30 → arrival 14:35 and call 9:15 → arrival 9:20,
whatever their other fields), `average_response_time` returns 300 seconds,
i.e. 5 minutes — the mean of the two 5-minute response durations. -/
theorem average_response_time_example_amended
    (id1 id2 : Int) (dt1 rt1 dt2 rt2 : ℚ) (s1 s2 : Bool) :
    average_response_time
        [⟨id1, 52200, dt1, 52500, rt1, s1⟩,
         ⟨id2, 33300, dt2, 33600, rt2, s2⟩] = Except.ok 300 := by
  rw [average_response_time, if_neg (by simp)]
  norm_num

/-- Claim C10: the four query methods are read-only — for every store
state and every timeframe, the `call_logs` list after the method call is
exactly the list before it, whether the call returns a value or raises. -/
theorem queries_read_only (call_logs : List CallRecord)
    (start_time end_time : ℚ) :
    (step call_logs Op.queryAvgResponse).1 = call_logs ∧
    (step call_logs Op.querySuccessRate).1 = call_logs ∧
    (step call_logs Op.queryAvgResolution).1 = call_logs ∧
    (step call_logs (Op.queryTimeframe start_time end_time)).1 = call_logs :=
  ⟨rfl, rfl, rfl, rfl⟩

/-- Claim C5: `calls_in_timeframe start end` keeps exactly the records
with `start ≤ call_time ≤ end` (both bounds inclusive): membership is
characterised by that condition, the output is a sublist of the store
(original insertion order, no duplication), and when no record matches —
in particular on the empty store — the result is the empty sequence. -/
theorem calls_in_timeframe_spec (call_logs : List CallRecord)
    (start_time end_time : ℚ) :
    (∀ c, c ∈ calls_in_timeframe call_logs start_time end_time ↔
        c ∈ call_logs ∧ start_time ≤ c.call_time ∧ c.call_time ≤ end_time) ∧
    (calls_in_timeframe call_logs start_time end_time).Sublist call_logs ∧
    ((∀ c ∈ call_logs,
        ¬ (start_time ≤ c.call_time ∧ c.call_time ≤ end_time)) →
      calls_in_timeframe call_logs start_time end_time = []) := by
  refine ⟨?_, List.filter_sublist _, ?_⟩
  · intro c
    simp [calls_in_timeframe, List.mem_filter, and_assoc]
  · intro h
    rw [calls_in_timeframe, List.filter_eq_nil_iff]
    intro c hc
    simpa using h c hc

/-- Witness for C5: on a one-record store whose record is outside the
timeframe, the result is empty. -/
theorem calls_in_timeframe_spec_witness :
    calls_in_timeframe [⟨1, 0, 0, 0, 0, true⟩] 10 20 = [] :=
  (calls_in_timeframe_spec [⟨1, 0, 0, 0, 0, true⟩] 10 20).2.2 (by
    intro c hc
    rw [List.mem_singleton] at hc
    subst hc
    norm_num)

/-- An `add_call_log` success keeps the invariant: every record of the new
store is in chronological order when every record of the old store was. -/
lemma add_call_log_preserves {logs newLogs : List CallRecord}
    {call_id : Int} {ct dt arr rt : ℚ} {s : Bool}
    (hinv : ∀ r ∈ logs, chronOrdered r)
    (h : add_call_log logs call_id ct dt arr rt s = Except.ok newLogs) :
    ∀ r ∈ newLogs, chronOrdered r := by
  obtain ⟨rfl, hord⟩ := add_call_log_ok_sound h
  intro r hr
  rcases List.mem_append.mp hr with hmem | hmem
  · exact hinv r hmem
  · rw [List.mem_singleton] at hmem
    subst hmem
    exact hord

/-- The store left behind by `add_multiple_call_logs` keeps the
invariant. -/
lemma add_multiple_call_logs_preserves (calls : List CallRecord) :
    ∀ logs : List CallRecord, (∀ r ∈ logs, chronOrdered r) →
      ∀ r ∈ (add_multiple_call_logs logs calls).1, chronOrdered r := by
  induction calls with
  | nil => intro logs hinv; simpa [add_multiple_call_logs] using hinv
  | cons call rest ih =>
    intro logs hinv
    rw [add_multiple_call_logs]
    rcases heq : add_call_log logs call.call_id call.call_time
        call.dispatch_time call.arrival_time call.resolution_time
        call.success with e | newLogs
    · simpa using hinv
    · exact ih newLogs (add_call_log_preserves hinv heq)

/-- Every single method call preserves the invariant on the store. -/
lemma step_preserves (op : Op) (logs : List CallRecord)
    (hinv : ∀ r ∈ logs, chronOrdered r) :
    ∀ r ∈ (step logs op).1, chronOrdered r := by
  cases op with
  | addCall call_id ct dt arr rt s =>
    rcases heq : add_call_log logs call_id ct dt arr rt s with e | newLogs
    · simpa [step, heq] using hinv
    · simpa [step, heq] using add_call_log_preserves hinv heq
  | addMultiple calls =>
    have h := add_multiple_call_logs_preserves calls logs hinv
    rcases heq : add_multiple_call_logs logs calls with ⟨newLogs, err⟩
    rw [heq] at h
    cases err <;> simpa [step, heq] using h
  | queryAvgResponse => simpa [step] using hinv
  | querySuccessRate => simpa [step] using hinv
  | queryAvgResolution => simpa [step] using hinv
  | queryTimeframe s e => simpa [step] using hinv

lemma foldl_step_preserves (ops : List Op) :
    ∀ logs : List CallRecord, (∀ r ∈ logs, chronOrdered r) →
      ∀ r ∈ ops.foldl (fun l op => (step l op).1) logs, chronOrdered r := by
  induction ops with
  | nil => intro logs hinv; simpa using hinv
  | cons op rest ih =>
    intro logs hinv
    exact ih _ (step_preserves op logs hinv)

/-- Claim C6: starting from the fresh empty store, after any sequence of
method calls (single inserts, batch inserts and queries, successful or
failed) every record held by the store satisfies
`call_time ≤ dispatch_time ≤ arrival_time ≤ resolution_time`. -/
theorem store_invariant (ops : List Op) :
    ∀ r ∈ runOps ops, chronOrdered r :=
  foldl_step_preserves ops [] (by simp)

/-- Witness for C6: the record stored by one concrete successful insert is
chronologically ordered. -/
theorem store_invariant_witness :
    chronOrdered ⟨1, 0, 1, 2, 3, true⟩ :=
  store_invariant [Op.addCall 1 0 1 2 3 true] ⟨1, 0, 1, 2, 3, true⟩ (by
    rw [runOps]
    simp only [List.foldl_cons, List.foldl_nil, step]
    rw [add_call_log, if_neg (by norm_num)]
    simp)

/-- Inserting a chronologically ordered record always succeeds and appends
exactly that record. -/
lemma add_call_log_of_ordered {logs : List CallRecord} {c : CallRecord}
    (hc : chronOrdered c) :
    add_call_log logs c.call_id c.call_time c.dispatch_time c.arrival_time
        c.resolution_time c.success = Except.ok (logs ++ [c]) := by
  obtain ⟨h1, h2, h3⟩ := hc
  rw [add_call_log, if_neg (not_not_intro ⟨h1, h2, h3⟩)]

lemma add_multiple_ok (calls : List CallRecord) :
    ∀ logs : List CallRecord, (∀ c ∈ calls, chronOrdered c) →
      add_multiple_call_logs logs calls = (logs ++ calls, none) := by
  induction calls with
  | nil => intro logs _; simp [add_multiple_call_logs]
  | cons c rest ih =>
    intro logs h
    rw [add_multiple_call_logs, add_call_log_of_ordered (h c (by simp))]
    simp [ih (logs ++ [c]) (fun x hx => h x (by simp [hx]))]

lemma add_multiple_err (pre : List CallRecord) :
    ∀ (logs : List CallRecord) (bad : CallRecord) (rest : List CallRecord),
      (∀ c ∈ pre, chronOrdered c) → ¬ chronOrdered bad →
      add_multiple_call_logs logs (pre ++ bad :: rest) =
        (logs ++ pre, some EspError.invalidOrdering) := by
  induction pre with
  | nil =>
    intro logs bad rest _ hbad
    have hbad2 : ¬ (bad.call_time ≤ bad.dispatch_time ∧
        bad.dispatch_time ≤ bad.arrival_time ∧
        bad.arrival_time ≤ bad.resolution_time) := hbad
    rw [List.nil_append, add_multiple_call_logs, add_call_log, if_pos hbad2]
    simp
  | cons c pre ih =>
    intro logs bad rest h hbad
    rw [List.cons_append, add_multiple_call_logs,
      add_call_log_of_ordered (h c (by simp))]
    simp [ih (logs ++ [c]) bad rest (fun x hx => h x (by simp [hx])) hbad]

/-- Claim C7: `add_multiple_call_logs` applies `add_call_log` to each
input in order.  When every input is valid, all of them end up appended,
in order, with no error.  When the input splits as a valid block followed
by the first invalid record, exactly that valid block has been appended
and remains in the store, the error escapes, and nothing from the invalid
record onward is stored. -/
theorem add_multiple_call_logs_spec (call_logs calls : List CallRecord) :
    ((∀ c ∈ calls, chronOrdered c) →
      add_multiple_call_logs call_logs calls = (call_logs ++ calls, none)) ∧
    (∀ pre bad rest, calls = pre ++ bad :: rest →
      (∀ c ∈ pre, chronOrdered c) → ¬ chronOrdered bad →
      add_multiple_call_logs call_logs calls =
        (call_logs ++ pre, some EspError.invalidOrdering)) := by
  refine ⟨fun h => add_multiple_ok calls call_logs h, ?_⟩
  intro pre bad rest hsplit hpre hbad
  rw [hsplit]
  exact add_multiple_err pre call_logs bad rest hpre hbad

/-- Witness for C7: a batch of one valid then one invalid record leaves
exactly the valid record stored and reports the ordering error. -/
theorem add_multiple_call_logs_spec_witness :
    add_multiple_call_logs []
        [⟨1, 0, 1, 2, 3, true⟩, ⟨2, 5, 1, 2, 3, false⟩] =
      ([⟨1, 0, 1, 2, 3, true⟩], some EspError.invalidOrdering) := by
  have h := (add_multiple_call_logs_spec []
      [⟨1, 0, 1, 2, 3, true⟩, ⟨2, 5, 1, 2, 3, false⟩]).2
      [⟨1, 0, 1, 2, 3, true⟩] ⟨2, 5, 1, 2, 3, false⟩ [] rfl
      (by
        intro c hc
        rw [List.mem_singleton] at hc
        subst hc
        exact ⟨by norm_num, by norm_num, by norm_num⟩)
      (by
        intro hc
        exact absurd hc.1 (by norm_num))
  simpa using h

lemma length_cast_ne_zero {l : List CallRecord} (h : l ≠ []) :
    (l.length : ℚ) ≠ 0 := by
  simpa [List.length_eq_zero] using h

/-- `success_rate` on a non-empty store is the number of successful
records over the total count, times the source's constant. -/
lemma success_rate_formula (call_logs : List CallRecord)
    (h : call_logs ≠ []) :
    success_rate call_logs =
      Except.ok
        ((((call_logs.filter (fun c => c.success)).length : ℚ) /
            call_logs.length) * 10000000000000000000) := by
  simp [success_rate, h, foldl_success_count]

/-- Claim C8: on non-empty stores, `success_rate` returns zero when every
record failed, the same maximal value (the source's constant) for every
all-successful store regardless of size, and in general a value
proportional to the success fraction k/N: two stores with equal success
fractions get equal rates. -/
theorem success_rate_algebraic (call_logs : List CallRecord)
    (h : call_logs ≠ []) :
    ((∀ r ∈ call_logs, r.success = false) →
      success_rate call_logs = Except.ok 0) ∧
    ((∀ r ∈ call_logs, r.success = true) →
      success_rate call_logs = Except.ok 10000000000000000000) ∧
    (∀ other : List CallRecord, other ≠ [] →
      ((call_logs.filter (fun c => c.success)).length : ℚ) * other.length =
        ((other.filter (fun c => c.success)).length : ℚ) * call_logs.length →
      success_rate call_logs = success_rate other) ∧
    (∀ q : ℚ, success_rate call_logs = Except.ok q →
      q ≤ 10000000000000000000) := by
  have hlen : (call_logs.length : ℚ) ≠ 0 := length_cast_ne_zero h
  refine ⟨?_, ?_, ?_, ?_⟩
  · intro hall
    have hnil : call_logs.filter (fun c => c.success) = [] :=
      List.filter_eq_nil_iff.mpr (fun a ha => by simp [hall a ha])
    rw [success_rate_formula call_logs h, hnil]
    simp
  · intro hall
    have hself : call_logs.filter (fun c => c.success) = call_logs :=
      List.filter_eq_self.mpr (fun a ha => by simp [hall a ha])
    rw [success_rate_formula call_logs h, hself, div_self hlen, one_mul]
  · intro other ho hprop
    have hlen2 : (other.length : ℚ) ≠ 0 := length_cast_ne_zero ho
    rw [success_rate_formula call_logs h, success_rate_formula other ho,
      (div_eq_div_iff hlen hlen2).mpr hprop]
  · intro q hq
    rw [success_rate_formula call_logs h] at hq
    have hq2 := Except.ok.inj hq
    subst hq2
    have hpos : (0 : ℚ) < call_logs.length := by
      exact_mod_cast List.length_pos.mpr h
    have hfrac :
        (((call_logs.filter (fun c => c.success)).length : ℚ) /
          call_logs.length) ≤ 1 := by
      rw [div_le_one hpos]
      exact_mod_cast List.length_filter_le _ call_logs
    calc (((call_logs.filter (fun c => c.success)).length : ℚ) /
            call_logs.length) * 10000000000000000000
        ≤ 1 * 10000000000000000000 := by
          exact mul_le_mul_of_nonneg_right hfrac (by norm_num)
      _ = 10000000000000000000 := one_mul _

/-- Witness for C8: concrete all-failed, all-successful and
equal-fraction stores. -/
theorem success_rate_algebraic_witness :
    success_rate [⟨1, 0, 0, 0, 0, false⟩] = Except.ok 0 ∧
    success_rate [⟨1, 0, 0, 0, 0, true⟩] =
      Except.ok 10000000000000000000 ∧
    success_rate [⟨1, 0, 0, 0, 0, true⟩] =
      success_rate [⟨1, 0, 0, 0, 0, true⟩, ⟨2, 1, 1, 1, 1, true⟩] :=
  ⟨(success_rate_algebraic [⟨1, 0, 0, 0, 0, false⟩] (by simp)).1 (by
      intro r hr
      rw [List.mem_singleton] at hr
      subst hr
      rfl),
   (success_rate_algebraic [⟨1, 0, 0, 0, 0, true⟩] (by simp)).2.1 (by
      intro r hr
      rw [List.mem_singleton] at hr
      subst hr
      rfl),
   (success_rate_algebraic [⟨1, 0, 0, 0, 0, true⟩] (by simp)).2.2.1
      [⟨1, 0, 0, 0, 0, true⟩, ⟨2, 1, 1, 1, 1, true⟩] (by simp) (by
      simp [List.filter_cons])⟩

end Emergency
